import Mathlib

/-!
Verification of the foreman rule-management subsystem
(`src/gui/plugins/foreman.py`) against its natural-language specification.

The data model and the operations below are shallow embeddings of the
Python source. Form requests (`request.REQ`) are modelled as partial maps
`String → Option String`; the AFF4 store holding the foreman's rule
collection is modelled as an `Option (List ForemanRule)` (`none` when no
`RULES` attribute is stored). External collaborators that the source calls
but whose code is not part of this repository slice (human-readable date
parsing, flow argument extraction, the regex engine) are passed in as
parameters.

The Foreman evaluation engine itself (Condition Evaluator, Dispatch
Ledger, Foreman Engine) is not present in the source slice; those
definitions are modelled from the spec and are marked as such in their
doc comments.
-/

/-- A regex condition of a foreman rule, mirroring the `regex_rules`
entries built by `AddForemanRuleAction.ParseRegexRules` (fields `path`,
`attribute_name`, `attribute_regex` of the `ForemanRule` proto). -/
structure RegexRule where
  path : String
  attribute_name : String
  attribute_regex : String
deriving DecidableEq

/-- An action of a foreman rule, mirroring the `actions` entries built by
`AddForemanRuleAction.ParseActionRules` (`flow_name` plus the `argv`
proto-dict, modelled as an ordered association list). -/
structure RuleAction where
  flow_name : String
  argv : List (String × String)
deriving DecidableEq

/-- A foreman rule (`jobs_pb2.ForemanRule`): description, creation and
expiry timestamps in microseconds, regex conditions and actions. -/
structure ForemanRule where
  description : String
  created : Nat
  expires : Nat
  regex_rules : List RegexRule
  actions : List RuleAction
deriving DecidableEq

/-- One iteration of the loop in `AddForemanRuleAction.ParseRegexRules`:
for index `i`, `regex_rules.add(path=REQ["path_i"],
attribute_name=REQ["attribute_name_i"], attribute_regex=REQ["attribute_regex_i"])`
inside `try/except KeyError: pass` — a condition is appended exactly when
all three keys are present, and a missing key adds nothing at all. -/
def regexStep (req : String → Option String) (r : ForemanRule) (i : Nat) :
    ForemanRule :=
  match req ("path_" ++ toString i), req ("attribute_name_" ++ toString i),
      req ("attribute_regex_" ++ toString i) with
  | some p, some n, some rx =>
      { r with regex_rules :=
          r.regex_rules ++ [{ path := p, attribute_name := n, attribute_regex := rx }] }
  | _, _, _ => r

/-- `AddForemanRuleAction.ParseRegexRules`: scan form indices 0..99 in
ascending order, appending a regex condition for each index whose three
keys are all present. -/
def ParseRegexRules (req : String → Option String) (foreman_rule : ForemanRule) :
    ForemanRule :=
  (List.range 100).foldl (regexStep req) foreman_rule

/-- The condition that index `i` of the form contributes (closed form of
`regexStep`): `some` exactly when all three keys are present. -/
def regexConditionAt (req : String → Option String) (i : Nat) : Option RegexRule :=
  match req ("path_" ++ toString i), req ("attribute_name_" ++ toString i),
      req ("attribute_regex_" ++ toString i) with
  | some p, some n, some rx =>
      some { path := p, attribute_name := n, attribute_regex := rx }
  | _, _, _ => none

/-- One iteration of the loop in `AddForemanRuleAction.ParseActionRules`:
`flow_name = REQ.get("flow_name_i")`; `if not flow_name: continue` (absent
or empty skips the index); otherwise an action is appended whose arguments
are extracted from the request for this flow and index (the
`GetArgs`/`BuildArgs`/`ProtoDict` pipeline, modelled by the external
parameter `getArgs`). -/
def actionStep (req : String → Option String)
    (getArgs : String → Nat → List (String × String)) (r : ForemanRule)
    (i : Nat) : ForemanRule :=
  match req ("flow_name_" ++ toString i) with
  | none => r
  | some flow_name =>
      if flow_name = "" then r
      else { r with actions :=
          r.actions ++ [{ flow_name := flow_name, argv := getArgs flow_name i }] }

/-- `AddForemanRuleAction.ParseActionRules`: scan form indices 0..99 in
ascending order, appending an action for each index whose `flow_name_i`
parameter is present and non-empty. -/
def ParseActionRules (req : String → Option String)
    (getArgs : String → Nat → List (String × String))
    (foreman_rule : ForemanRule) : ForemanRule :=
  (List.range 100).foldl (actionStep req getArgs) foreman_rule

/-- The action that index `i` of the form contributes (closed form of
`actionStep`). -/
def actionAt (req : String → Option String)
    (getArgs : String → Nat → List (String × String)) (i : Nat) :
    Option RuleAction :=
  match req ("flow_name_" ++ toString i) with
  | none => none
  | some flow_name =>
      if flow_name = "" then none
      else some { flow_name := flow_name, argv := getArgs flow_name i }

/-- `AddForemanRuleAction.AddRuleToForeman`: open the foreman object,
read `RULES` (an absent attribute becomes a fresh empty collection),
append the new rule, write the collection back. Returns the rule
collection that is stored afterwards. -/
def AddRuleToForeman (foreman_rule : ForemanRule)
    (stored : Option (List ForemanRule)) : List ForemanRule :=
  (stored.getD []) ++ [foreman_rule]

/-- Outcome of `AddForemanRuleAction.Layout`: the stored rule collection
afterwards, and the error message rendered through `error_template` when
the sanity check fails (`none` on the success path). -/
structure AddResult where
  stored : Option (List ForemanRule)
  error : Option String
deriving DecidableEq

/-- `AddForemanRuleAction.Layout`: build a `ForemanRule` with
`created = now` and the parsed expiry date, reject with the error template
when `expires < created`, otherwise parse conditions and actions from the
form and store the rule via `AddRuleToForeman`. The human-readable date
parsing of `expires_text` is external; its result is the parameter
`expires`, and `now` is the current time in microseconds. -/
def AddForemanRuleActionLayout (req : String → Option String)
    (getArgs : String → Nat → List (String × String)) (now expires : Nat)
    (stored : Option (List ForemanRule)) : AddResult :=
  let foreman_rule : ForemanRule :=
    { description := (req "description").getD "", created := now,
      expires := expires, regex_rules := [], actions := [] }
  if foreman_rule.expires < foreman_rule.created then
    { stored := stored, error := some "Rule already expired?" }
  else
    let foreman_rule := ParseRegexRules req foreman_rule
    let foreman_rule := ParseActionRules req getArgs foreman_rule
    { stored := some (AddRuleToForeman foreman_rule stored), error := none }

/-- Outcome of `DeleteRule.Layout`: the stored rule collection afterwards,
whether a write (`fd.Set` + `fd.Flush`) happened, and the error rendered
to the user (the source renders the `Removed rule` template
unconditionally, so this is always `none`). -/
structure DeleteResult where
  stored : Option (List ForemanRule)
  wrote : Bool
  error : Option String
deriving DecidableEq

/-- The loop of `DeleteRule.Layout`:
`for i, rule in enumerate(rules): if i == self.rule_id: continue;
new_rules.Append(rule)`, started at index `n`. -/
def removeLoop (rule_id : Int) : Nat → List ForemanRule → List ForemanRule
  | _, [] => []
  | n, r :: rs =>
      if (n : Int) = rule_id then removeLoop rule_id (n + 1) rs
      else r :: removeLoop rule_id (n + 1) rs

/-- `DeleteRule.Layout`: `rule_id = int(REQ.get("rule_id", -1))`; only when
`rule_id >= 0` and a rule collection is stored does it build `new_rules`
by copying every rule whose index differs from `rule_id` and write the new
collection back; otherwise nothing is written. -/
def DeleteRuleLayout (ruleIdParam : Option Int)
    (stored : Option (List ForemanRule)) : DeleteResult :=
  let rule_id := ruleIdParam.getD (-1)
  match stored with
  | some rules =>
      if 0 ≤ rule_id then
        { stored := some (removeLoop rule_id 0 rules), wrote := true,
          error := none }
      else { stored := stored, wrote := false, error := none }
  | none => { stored := none, wrote := false, error := none }

/-- Modelled from the spec: the Condition Evaluator's per-condition test
(§4.2), missing from the source slice. A condition matches iff the named
attribute is present in the client snapshot and the condition's pattern
matches its string value under regex search; the regex engine is the
external parameter `regexSearch` (pattern, then value). -/
def condMatches (regexSearch : String → String → Bool)
    (snapshot : String → Option String) (c : RegexRule) : Bool :=
  match snapshot c.attribute_name with
  | none => false
  | some v => regexSearch c.attribute_regex v

/-- Modelled from the spec: the Condition Evaluator's
`Matches(rule, snapshot)` (§4.2), missing from the source slice; the AND
over all conditions in the rule's condition list (its `regex_rules`),
with an empty list matching unconditionally. -/
def Matches (regexSearch : String → String → Bool) (rule : ForemanRule)
    (snapshot : String → Option String) : Bool :=
  rule.regex_rules.all (condMatches regexSearch snapshot)

/-- Insertion of a rule into a list sorted by ascending `created`,
auxiliary to ordering step 4 of the spec's Foreman Engine. -/
def insertByCreated (r : ForemanRule) :
    List ForemanRule → List ForemanRule
  | [] => [r]
  | x :: xs =>
      if r.created ≤ x.created then r :: x :: xs
      else x :: insertByCreated r xs

/-- Sorting the remaining rules by ascending `created`, as prescribed by
step 4 of the spec's Foreman Engine (§4.4). -/
def sortByCreated : List ForemanRule → List ForemanRule
  | [] => []
  | x :: xs => insertByCreated x (sortByCreated xs)

/-- Modelled from the spec: the dispatch loop of the Foreman Engine
(§4.4 step 4), missing from the source slice. For each rule in order:
if the Condition Evaluator matches and the Dispatch Ledger's `ShouldFire`
holds (the rule's `created` is above the client's watermark, §4.3), the
rule's actions are dispatched and `RecordFired` advances the watermark to
`max(watermark, created)`. Returns the dispatched rules and the watermark
after the loop. -/
def evalLoop (regexSearch : String → String → Bool)
    (snapshot : String → Option String) :
    List ForemanRule → Nat → List ForemanRule × Nat
  | [], wm => ([], wm)
  | r :: rs, wm =>
      if Matches regexSearch r snapshot = true ∧ wm < r.created then
        let rest := evalLoop regexSearch snapshot rs (max wm r.created)
        (r :: rest.1, rest.2)
      else evalLoop regexSearch snapshot rs wm

/-- Modelled from the spec: the Foreman Engine's `Evaluate` pass for one
client (§4.4), missing from the source slice. Takes the loaded rule set,
the client's attribute snapshot, the current time and the client's
dispatch-ledger watermark; filters out expired rules (`now ≥ expires`)
and already-evaluated rules (`created ≤ watermark`), dispatches the
remaining matching rules in ascending `created` order, and finally
advances the watermark to the maximum `created` among all rules
considered (step 5). Returns the dispatched rules and the new
watermark. -/
def Evaluate (regexSearch : String → String → Bool)
    (ruleset : List ForemanRule) (snapshot : String → Option String)
    (now wm : Nat) : List ForemanRule × Nat :=
  let active := ruleset.filter (fun r => decide (now < r.expires))
  let fresh := active.filter (fun r => decide (wm < r.created))
  let res := evalLoop regexSearch snapshot (sortByCreated fresh) wm
  (res.1, fresh.foldl (fun w r => max w r.created) res.2)

/-- A concrete rule used to instantiate theorems at specific inputs. -/
def sampleRule : ForemanRule :=
  { description := "", created := 0, expires := 1, regex_rules := [],
    actions := [] }

/-- A second concrete rule used to instantiate theorems. -/
def sampleRule2 : ForemanRule :=
  { description := "", created := 5, expires := 9, regex_rules := [],
    actions := [] }

/-- The rule of the spec's evaluation scenario (§8):
created=100, expires=200, no conditions. -/
def ruleA : ForemanRule :=
  { description := "", created := 100, expires := 200, regex_rules := [],
    actions := [] }

/-! Helper lemmas. -/

theorem regexStep_regex_rules (req : String → Option String)
    (r : ForemanRule) (i : Nat) :
    (regexStep req r i).regex_rules
      = r.regex_rules ++ (regexConditionAt req i).toList := by
  unfold regexStep regexConditionAt
  rcases req ("path_" ++ toString i) with _ | p <;>
    rcases req ("attribute_name_" ++ toString i) with _ | n <;>
    rcases req ("attribute_regex_" ++ toString i) with _ | rx <;> simp

theorem foldl_regexStep_regex_rules (req : String → Option String)
    (l : List Nat) :
    ∀ r : ForemanRule, (l.foldl (regexStep req) r).regex_rules
      = r.regex_rules ++ l.filterMap (regexConditionAt req) := by
  induction l with
  | nil => intro r; simp
  | cons i l ih =>
      intro r
      rw [List.foldl_cons, ih, regexStep_regex_rules, List.filterMap_cons]
      rcases regexConditionAt req i with _ | c <;> simp

theorem actionStep_actions (req : String → Option String)
    (getArgs : String → Nat → List (String × String)) (r : ForemanRule)
    (i : Nat) :
    (actionStep req getArgs r i).actions
      = r.actions ++ (actionAt req getArgs i).toList := by
  unfold actionStep actionAt
  rcases req ("flow_name_" ++ toString i) with _ | fn
  · simp
  · by_cases h : fn = "" <;> simp [h]

theorem foldl_actionStep_actions (req : String → Option String)
    (getArgs : String → Nat → List (String × String)) (l : List Nat) :
    ∀ r : ForemanRule, (l.foldl (actionStep req getArgs) r).actions
      = r.actions ++ l.filterMap (actionAt req getArgs) := by
  induction l with
  | nil => intro r; simp
  | cons i l ih =>
      intro r
      rw [List.foldl_cons, ih, actionStep_actions, List.filterMap_cons]
      rcases actionAt req getArgs i with _ | a <;> simp

theorem removeLoop_of_lt (rule_id : Int) :
    ∀ (rules : List ForemanRule) (n : Nat), rule_id < (n : Int) →
      removeLoop rule_id n rules = rules := by
  intro rules
  induction rules with
  | nil => intro n _; rfl
  | cons r rs ih =>
      intro n h
      unfold removeLoop
      rw [if_neg (by omega), ih (n + 1) (by push_cast; omega)]

theorem removeLoop_of_ge (rule_id : Int) :
    ∀ (rules : List ForemanRule) (n : Nat),
      (n : Int) + rules.length ≤ rule_id →
      removeLoop rule_id n rules = rules := by
  intro rules
  induction rules with
  | nil => intro n _; rfl
  | cons r rs ih =>
      intro n h
      simp only [List.length_cons] at h
      unfold removeLoop
      rw [if_neg (by omega), ih (n + 1) (by push_cast at h ⊢; omega)]

theorem removeLoop_eq_take_drop (rule_id : Int) :
    ∀ (rules : List ForemanRule) (i n : Nat), i < rules.length →
      rule_id = (n : Int) + i →
      removeLoop rule_id n rules = rules.take i ++ rules.drop (i + 1) := by
  intro rules
  induction rules with
  | nil => intro i n h _; simp at h
  | cons r rs ih =>
      intro i n hlen hid
      match i with
      | 0 =>
          unfold removeLoop
          rw [if_pos (by omega),
            removeLoop_of_lt rule_id rs (n + 1) (by push_cast; omega)]
          simp
      | i + 1 =>
          unfold removeLoop
          rw [if_neg (by push_cast at hid ⊢; omega)]
          simp only [List.length_cons] at hlen
          rw [ih i (n + 1) (by omega) (by push_cast at hid ⊢; omega)]
          simp [List.take_succ_cons, List.drop_succ_cons]

theorem mem_insertByCreated (a r : ForemanRule) :
    ∀ l : List ForemanRule,
      a ∈ insertByCreated r l ↔ a = r ∨ a ∈ l := by
  intro l
  induction l with
  | nil => simp [insertByCreated]
  | cons x xs ih =>
      unfold insertByCreated
      by_cases h : r.created ≤ x.created
      · simp [h]
      · simp only [if_neg h, List.mem_cons, ih]
        tauto

theorem mem_sortByCreated (a : ForemanRule) :
    ∀ l : List ForemanRule, a ∈ sortByCreated l ↔ a ∈ l := by
  intro l
  induction l with
  | nil => simp [sortByCreated]
  | cons x xs ih =>
      unfold sortByCreated
      rw [mem_insertByCreated, ih]
      simp

theorem mem_evalLoop_fst (regexSearch : String → String → Bool)
    (snapshot : String → Option String) (a : ForemanRule) :
    ∀ (l : List ForemanRule) (wm : Nat),
      a ∈ (evalLoop regexSearch snapshot l wm).1 → a ∈ l := by
  intro l
  induction l with
  | nil => intro wm h; simp [evalLoop] at h
  | cons r rs ih =>
      intro wm h
      unfold evalLoop at h
      by_cases hc : Matches regexSearch r snapshot = true ∧ wm < r.created
      · rw [if_pos hc] at h
        rcases List.mem_cons.mp h with h | h
        · exact h ▸ List.mem_cons_self r rs
        · exact List.mem_cons_of_mem r (ih _ h)
      · rw [if_neg hc] at h
        exact List.mem_cons_of_mem r (ih _ h)

theorem init_le_foldl_maxCreated :
    ∀ (l : List ForemanRule) (init : Nat),
      init ≤ l.foldl (fun w r => max w r.created) init := by
  intro l
  induction l with
  | nil => intro init; simp
  | cons r rs ih =>
      intro init
      rw [List.foldl_cons]
      exact le_trans (le_max_left init r.created) (ih (max init r.created))

theorem mem_le_foldl_maxCreated (a : ForemanRule) :
    ∀ (l : List ForemanRule) (init : Nat), a ∈ l →
      a.created ≤ l.foldl (fun w r => max w r.created) init := by
  intro l
  induction l with
  | nil => intro init h; simp at h
  | cons r rs ih =>
      intro init h
      rw [List.foldl_cons]
      rcases List.mem_cons.mp h with h | h
      · exact le_trans (h ▸ le_max_right init r.created)
          (init_le_foldl_maxCreated rs (max init r.created))
      · exact ih (max init r.created) h

theorem mem_evaluate_dispatched (regexSearch : String → String → Bool)
    (ruleset : List ForemanRule) (snapshot : String → Option String)
    (now wm : Nat) (a : ForemanRule)
    (h : a ∈ (Evaluate regexSearch ruleset snapshot now wm).1) :
    a ∈ ruleset ∧ now < a.expires ∧ wm < a.created ∧
      a.created ≤ (Evaluate regexSearch ruleset snapshot now wm).2 := by
  unfold Evaluate at h ⊢
  simp only at h ⊢
  have hfresh := (mem_sortByCreated a _).mp (mem_evalLoop_fst _ _ a _ _ h)
  have h1 := List.mem_filter.mp hfresh
  have h2 := List.mem_filter.mp h1.1
  refine ⟨h2.1, by simpa using h2.2, by simpa using h1.2, ?_⟩
  exact mem_le_foldl_maxCreated a _ _ hfresh

/-! Claim theorems. -/

set_option maxRecDepth 8000 in
/-- C1, counterexample: the claim that rule creation rejects every request
with expires ≤ created fails at the boundary. With created = expires = 100
the sanity check `expires < created` does not fire: the operation succeeds
with no error and the rule is stored. -/
theorem addForemanRule_boundary_expires_eq_created_accepted :
    (AddForemanRuleActionLayout (fun _ => none) (fun _ _ => []) 100 100
        none).error = none ∧
    (AddForemanRuleActionLayout (fun _ => none) (fun _ _ => []) 100 100
        none).stored
      = some [{ description := "", created := 100, expires := 100,
                regex_rules := [], actions := [] }] := by
  exact ⟨rfl, rfl⟩

/-- C1, amended: rule creation rejects any request whose expiry timestamp
is strictly less than its creation timestamp — the operation renders the
error template and the stored rule collection is unchanged; the boundary
case expires = created is accepted, not rejected. -/
theorem addForemanRule_rejects_strictly_expired
    (req : String → Option String)
    (getArgs : String → Nat → List (String × String)) (now expires : Nat)
    (stored : Option (List ForemanRule)) (h : expires < now) :
    (AddForemanRuleActionLayout req getArgs now expires stored).error
        = some "Rule already expired?" ∧
    (AddForemanRuleActionLayout req getArgs now expires stored).stored
        = stored := by
  simp [AddForemanRuleActionLayout, h]

/-- C1, witness: instantiation of the rejection theorem at
now = 100, expires = 50, empty request, empty store. -/
theorem addForemanRule_rejects_strictly_expired_witness :
    50 < 100 ∧
    ((AddForemanRuleActionLayout (fun _ => none) (fun _ _ => []) 100 50
        none).error = some "Rule already expired?" ∧
     (AddForemanRuleActionLayout (fun _ => none) (fun _ _ => []) 100 50
        none).stored = none) :=
  ⟨by decide,
   addForemanRule_rejects_strictly_expired (fun _ => none) (fun _ _ => [])
     100 50 none (by decide)⟩

/-- C2, counterexample: the claim that rule removal fails with an
IndexOutOfRange error for an out-of-range index is false. With one stored
rule and rule_id = 5 the operation completes with no error and the stored
collection unchanged (it even performs a write of the unchanged set). -/
theorem deleteRule_out_of_range_no_error :
    (DeleteRuleLayout (some 5) (some [sampleRule])).error = none ∧
    (DeleteRuleLayout (some 5) (some [sampleRule])).stored
      = some [sampleRule] := by
  exact ⟨rfl, rfl⟩

/-- C2, amended: for every index that is not a valid position in the
stored rule collection (negative, or ≥ the number of stored rules), the
removal operation succeeds silently: no error is raised and the stored
rule sequence is unchanged. -/
theorem deleteRule_invalid_index_silent_noop (p : Option Int)
    (rules : List ForemanRule)
    (h : p.getD (-1) < 0 ∨ (rules.length : Int) ≤ p.getD (-1)) :
    (DeleteRuleLayout p (some rules)).stored = some rules ∧
    (DeleteRuleLayout p (some rules)).error = none := by
  rcases h with h | h
  · simp only [DeleteRuleLayout]
    rw [if_neg (by omega)]
    exact ⟨rfl, rfl⟩
  · simp only [DeleteRuleLayout]
    rw [if_pos (by omega), removeLoop_of_ge _ rules 0 (by push_cast; omega)]
    exact ⟨rfl, rfl⟩

/-- C2, witness: instantiation of the silent-noop theorem at index 5 with
one stored rule. -/
theorem deleteRule_invalid_index_silent_noop_witness :
    (((some 5 : Option Int).getD (-1) < 0 ∨
       (([sampleRule] : List ForemanRule).length : Int)
         ≤ (some 5 : Option Int).getD (-1)) ∧
     ((DeleteRuleLayout (some 5) (some [sampleRule])).stored
         = some [sampleRule] ∧
      (DeleteRuleLayout (some 5) (some [sampleRule])).error = none)) :=
  ⟨Or.inr (by decide),
   deleteRule_invalid_index_silent_noop (some 5) [sampleRule]
     (Or.inr (by decide))⟩

/-- C3: for every stored rule collection and every valid index
i < length, the removal operation stores exactly the old collection with
the rule at position i omitted — the prefix before i and the suffix after
i are preserved unchanged and in order — and raises no error. -/
theorem deleteRule_valid_index_removes_exactly (rules : List ForemanRule)
    (i : Nat) (h : i < rules.length) :
    (DeleteRuleLayout (some (i : Int)) (some rules)).stored
      = some (rules.take i ++ rules.drop (i + 1)) ∧
    (DeleteRuleLayout (some (i : Int)) (some rules)).error = none := by
  simp only [DeleteRuleLayout, Option.getD_some]
  rw [if_pos (by omega),
    removeLoop_eq_take_drop (i : Int) rules i 0 h (by push_cast; ring)]
  exact ⟨rfl, rfl⟩

/-- C3, witness: instantiation at a two-rule collection, removing
index 0. -/
theorem deleteRule_valid_index_removes_exactly_witness :
    0 < ([sampleRule, sampleRule2] : List ForemanRule).length ∧
    ((DeleteRuleLayout (some ((0 : Nat) : Int))
        (some [sampleRule, sampleRule2])).stored
      = some (([sampleRule, sampleRule2] : List ForemanRule).take 0 ++
              ([sampleRule, sampleRule2] : List ForemanRule).drop 1) ∧
     (DeleteRuleLayout (some ((0 : Nat) : Int))
        (some [sampleRule, sampleRule2])).error = none) :=
  ⟨by decide,
   deleteRule_valid_index_removes_exactly [sampleRule, sampleRule2] 0
     (by decide)⟩

/-- C4: appending a rule to the foreman stores a collection whose last
element is the new rule and whose preceding elements are exactly the
previously stored rules (an absent collection counting as empty),
unchanged and in order. -/
theorem addRuleToForeman_appends (rule : ForemanRule)
    (stored : Option (List ForemanRule)) :
    (AddRuleToForeman rule stored).getLast? = some rule ∧
    (AddRuleToForeman rule stored).dropLast = stored.getD [] := by
  unfold AddRuleToForeman
  exact ⟨List.getLast?_concat _, List.dropLast_concat ..⟩

/-- C5: at-most-once dispatch. Once an evaluation pass for a client has
dispatched rule R (recording it in the dispatch ledger, which advances the
client's watermark), no later evaluation pass for that client — starting
from that watermark or any later one — dispatches R again, whatever the
rule set, snapshot, current time or regex engine of the later pass. -/
theorem evaluate_at_most_once_dispatch
    (rS1 rS2 : String → String → Bool) (rs1 rs2 : List ForemanRule)
    (snap1 snap2 : String → Option String) (now1 now2 wm0 wm1 : Nat)
    (R : ForemanRule)
    (h1 : R ∈ (Evaluate rS1 rs1 snap1 now1 wm0).1)
    (h2 : (Evaluate rS1 rs1 snap1 now1 wm0).2 ≤ wm1) :
    R ∉ (Evaluate rS2 rs2 snap2 now2 wm1).1 := by
  intro hmem
  have ha := mem_evaluate_dispatched rS1 rs1 snap1 now1 wm0 R h1
  have hb := mem_evaluate_dispatched rS2 rs2 snap2 now2 wm1 R hmem
  omega

/-- C5, witness: the spec's scenario. Rule with created=100, expires=200
and no conditions is dispatched at t=150 from watermark 0; the pass leaves
watermark 100, and the pass at t=160 from watermark 100 does not
re-dispatch it. -/
theorem evaluate_at_most_once_dispatch_witness :
    ruleA ∈ (Evaluate (fun _ _ => false) [ruleA] (fun _ => none)
        150 0).1 ∧
    (Evaluate (fun _ _ => false) [ruleA] (fun _ => none) 150 0).2 ≤ 100 ∧
    ruleA ∉ (Evaluate (fun _ _ => false) [ruleA] (fun _ => none)
        160 100).1 :=
  ⟨by decide, by decide,
   evaluate_at_most_once_dispatch (fun _ _ => false) (fun _ _ => false)
     [ruleA] [ruleA] (fun _ => none) (fun _ => none) 150 160 0 100 ruleA
     (by decide) (by decide)⟩

/-- C6: the Condition Evaluator's Matches returns true for every rule
whose condition list is empty, whatever the snapshot and regex engine
(vacuous AND). -/
theorem matches_empty_conditions (regexSearch : String → String → Bool)
    (rule : ForemanRule) (snapshot : String → Option String)
    (h : rule.regex_rules = []) :
    Matches regexSearch rule snapshot = true := by
  simp [Matches, h]

/-- C6, witness: instantiation at the condition-free rule ruleA. -/
theorem matches_empty_conditions_witness :
    ruleA.regex_rules = [] ∧
    Matches (fun _ _ => false) ruleA (fun _ => none) = true :=
  ⟨rfl, matches_empty_conditions (fun _ _ => false) ruleA (fun _ => none)
    rfl⟩

/-- C7: expired rules are inert. For every evaluation pass at a current
time at or past a rule's expiry, that rule is never dispatched, whatever
its conditions, the snapshot, the rule set or the watermark. -/
theorem expired_rules_inert (regexSearch : String → String → Bool)
    (ruleset : List ForemanRule) (snapshot : String → Option String)
    (now wm : Nat) (R : ForemanRule) (h : R.expires ≤ now) :
    R ∉ (Evaluate regexSearch ruleset snapshot now wm).1 := by
  intro hmem
  have := mem_evaluate_dispatched regexSearch ruleset snapshot now wm R hmem
  omega

/-- C7, witness: ruleA (expires=200) evaluated at t=200 is not
dispatched. -/
theorem expired_rules_inert_witness :
    ruleA.expires ≤ 200 ∧
    ruleA ∉ (Evaluate (fun _ _ => false) [ruleA] (fun _ => none)
        200 0).1 :=
  ⟨by decide,
   expired_rules_inert (fun _ _ => false) [ruleA] (fun _ => none) 200 0
     ruleA (by decide)⟩

/-- C8: ParseRegexRules appends to the rule exactly the conditions
contributed by form indices 0..99 in ascending order — at most 100 — where
index i contributes the condition built from path_i, attribute_name_i and
attribute_regex_i exactly when all three keys are present, and contributes
nothing at all (no partial condition) when any key is missing, without
stopping the scan of higher indices. -/
theorem parseRegexRules_characterization (req : String → Option String)
    (foreman_rule : ForemanRule) :
    (ParseRegexRules req foreman_rule).regex_rules
        = foreman_rule.regex_rules ++
          (List.range 100).filterMap (regexConditionAt req) ∧
    ((List.range 100).filterMap (regexConditionAt req)).length ≤ 100 ∧
    (∀ i p n rx, req ("path_" ++ toString i) = some p →
        req ("attribute_name_" ++ toString i) = some n →
        req ("attribute_regex_" ++ toString i) = some rx →
        regexConditionAt req i
          = some { path := p, attribute_name := n, attribute_regex := rx }) ∧
    (∀ i, (req ("path_" ++ toString i) = none ∨
           req ("attribute_name_" ++ toString i) = none ∨
           req ("attribute_regex_" ++ toString i) = none) →
        regexConditionAt req i = none) := by
  refine ⟨foldl_regexStep_regex_rules req (List.range 100) foreman_rule,
    le_trans (List.length_filterMap_le _ _) (by simp), ?_, ?_⟩
  · intro i p n rx hp hn hrx
    unfold regexConditionAt
    rw [hp, hn, hrx]
  · intro i h
    unfold regexConditionAt
    rcases hp : req ("path_" ++ toString i) with _ | p <;>
      rcases hn : req ("attribute_name_" ++ toString i) with _ | n <;>
      rcases hrx : req ("attribute_regex_" ++ toString i) with _ | rx <;>
      simp_all

/-- C9: ParseActionRules appends to the rule exactly the actions
contributed by form indices 0..99 in ascending order — at most 100 — where
an index whose flow_name parameter is absent or empty contributes no
action and does not stop the scan, and every contributed action carries
the flow name and the arguments extracted for its own index. -/
theorem parseActionRules_characterization (req : String → Option String)
    (getArgs : String → Nat → List (String × String))
    (foreman_rule : ForemanRule) :
    (ParseActionRules req getArgs foreman_rule).actions
        = foreman_rule.actions ++
          (List.range 100).filterMap (actionAt req getArgs) ∧
    ((List.range 100).filterMap (actionAt req getArgs)).length ≤ 100 ∧
    (∀ i, (req ("flow_name_" ++ toString i) = none ∨
           req ("flow_name_" ++ toString i) = some "") →
        actionAt req getArgs i = none) ∧
    (∀ i fn, req ("flow_name_" ++ toString i) = some fn → fn ≠ "" →
        actionAt req getArgs i
          = some { flow_name := fn, argv := getArgs fn i }) := by
  refine ⟨foldl_actionStep_actions req getArgs (List.range 100)
      foreman_rule,
    le_trans (List.length_filterMap_le _ _) (by simp), ?_, ?_⟩
  · intro i h
    unfold actionAt
    rcases h with h | h <;> rw [h]
    simp
  · intro i fn hfn hne
    unfold actionAt
    rw [hfn]
    simp [hne]

/-- C10: when the removal request's index is negative (including the
default -1 used when no index is supplied) or no rule collection is
stored, DeleteRule performs no write at all and the stored collection
afterwards equals the stored collection before. -/
theorem deleteRule_negative_or_absent_no_write (p : Option Int)
    (stored : Option (List ForemanRule))
    (h : p.getD (-1) < 0 ∨ stored = none) :
    (DeleteRuleLayout p stored).wrote = false ∧
    (DeleteRuleLayout p stored).stored = stored := by
  rcases stored with _ | rules
  · exact ⟨rfl, rfl⟩
  · rcases h with h | h
    · simp only [DeleteRuleLayout]
      rw [if_neg (by omega)]
      exact ⟨rfl, rfl⟩
    · simp at h

/-- C10, witness: instantiation with no index supplied (default -1) and
one stored rule: nothing is written and the store is unchanged. -/
theorem deleteRule_negative_or_absent_no_write_witness :
    ((none : Option Int).getD (-1) < 0 ∨
      (some [sampleRule] : Option (List ForemanRule)) = none) ∧
    ((DeleteRuleLayout none (some [sampleRule])).wrote = false ∧
     (DeleteRuleLayout none (some [sampleRule])).stored
        = some [sampleRule]) :=
  ⟨Or.inl (by decide),
   deleteRule_negative_or_absent_no_write none (some [sampleRule])
     (Or.inl (by decide))⟩
